import Mathlib

/-!
Verification of the sx artifact installer core: hash utilities
(utils package), cache path layout (internal/cache), the agent install
handler (internal/handlers), GitHub tree URLs (github package), the
session cache (internal/cache/sessions.go) and the lock-file model.

Strings manipulated character by character are modelled as lists of
characters (Go strings are byte slices; all the inputs that matter here
are ASCII).  Byte sequences are lists of naturals below 256.
-/

namespace Sx

/-! ## Character-list utilities -/

abbrev Str := List Char

/-- Split a character list at every occurrence of the separator `c`
(the semantics of `strings.Split(s, c)`). -/
def splitOnChar (c : Char) : Str → List Str
  | [] => [[]]
  | d :: rest =>
    if d = c then [] :: splitOnChar c rest
    else
      match splitOnChar c rest with
      | x :: xs => (d :: x) :: xs
      | [] => [[d]]

/-- Join character lists with the separator `c` (the semantics of
`strings.Join(parts, c)`). -/
def intercalateChar (c : Char) : List Str → Str
  | [] => []
  | [x] => x
  | x :: y :: xs => x ++ c :: intercalateChar c (y :: xs)

/-- Strip a literal leading pattern; `none` when the pattern is not a
prefix of the input. -/
def dropPat : Str → Str → Option Str
  | [], s => some s
  | _ :: _, [] => none
  | p :: ps, d :: ds => if d = p then dropPat ps ds else none

/-! ## Hex encoding (encoding/hex) -/

/-- The lowercase hex alphabet used by `hex.EncodeToString`
(`const hextable = "0123456789abcdef"` in encoding/hex). -/
def hexTable : List Char := "0123456789abcdef".toList

def hexDigitChar (n : Nat) : Char := hexTable.getD n '0'

/-- Hex encoding of a byte sequence: two lowercase hex digits per byte,
high nibble first (`hex.EncodeToString`). -/
def hexChars : List Nat → Str
  | [] => []
  | b :: bs => hexDigitChar (b / 16) :: hexDigitChar (b % 16) :: hexChars bs

/-! ## SHA-2 (crypto/sha256, crypto/sha512)

Faithful model of the FIPS 180-4 SHA-256 and SHA-512 functions that the
Go standard library computes for `sha256.Sum256` and `sha512.Sum512`.
Machine words of width `w` are naturals reduced modulo `2 ^ w`. -/

namespace SHA2

/-- The eight chaining words of a SHA-2 state. -/
structure Hash8 where
  a : Nat
  b : Nat
  c : Nat
  d : Nat
  e : Nat
  f : Nat
  g : Nat
  h : Nat

/-- Parameters distinguishing SHA-256 from SHA-512. -/
structure Params where
  wordBits : Nat
  blockBytes : Nat
  lenBytes : Nat
  rounds : Nat
  bs0 : Nat × Nat × Nat
  bs1 : Nat × Nat × Nat
  ss0 : Nat × Nat × Nat
  ss1 : Nat × Nat × Nat
  K : List Nat
  H0 : Hash8

/-- Right rotation of a `w`-bit word. -/
def rotr (w n x : Nat) : Nat := (x >>> n) ||| ((x <<< (w - n)) % 2 ^ w)

def bigSigma0 (p : Params) (x : Nat) : Nat :=
  rotr p.wordBits p.bs0.1 x ^^^ rotr p.wordBits p.bs0.2.1 x ^^^ rotr p.wordBits p.bs0.2.2 x

def bigSigma1 (p : Params) (x : Nat) : Nat :=
  rotr p.wordBits p.bs1.1 x ^^^ rotr p.wordBits p.bs1.2.1 x ^^^ rotr p.wordBits p.bs1.2.2 x

def smallSigma0 (p : Params) (x : Nat) : Nat :=
  rotr p.wordBits p.ss0.1 x ^^^ rotr p.wordBits p.ss0.2.1 x ^^^ (x >>> p.ss0.2.2)

def smallSigma1 (p : Params) (x : Nat) : Nat :=
  rotr p.wordBits p.ss1.1 x ^^^ rotr p.wordBits p.ss1.2.1 x ^^^ (x >>> p.ss1.2.2)

/-- Big-endian encoding of `n` into `k` bytes. -/
def beBytes : Nat → Nat → List Nat
  | 0, _ => []
  | k + 1, n => beBytes k (n / 256) ++ [n % 256]

/-- Big-endian word value of a byte list. -/
def beWord (bytes : List Nat) : Nat := bytes.foldl (fun acc b => acc * 256 + b) 0

/-- Chop a byte list into chunks of `k` bytes (the last chunk may be
shorter; hashing always receives a multiple of the block size). -/
def chunksOf (k : Nat) : List Nat → List (List Nat)
  | [] => []
  | x :: xs => (x :: xs.take (k - 1)) :: chunksOf k (xs.drop (k - 1))
termination_by l => l.length
decreasing_by
  simp only [List.length_cons, List.length_drop]
  omega

/-- Merkle-Damgard padding: append `0x80`, zero bytes, then the bit
length big-endian in `p.lenBytes` bytes, up to a block multiple. -/
def padMessage (p : Params) (msg : List Nat) : List Nat :=
  let bitLen := 8 * msg.length
  let base := msg ++ [128]
  let padZeros := (p.blockBytes - (base.length + p.lenBytes) % p.blockBytes) % p.blockBytes
  base ++ List.replicate padZeros 0 ++ beBytes p.lenBytes bitLen

/-- Split a block into its sixteen initial schedule words. -/
def toWords (p : Params) (block : List Nat) : List Nat :=
  (chunksOf (p.wordBits / 8) block).map beWord

/-- Extend the sixteen block words to the full message schedule. -/
def extendW (p : Params) (w16 : List Nat) : List Nat :=
  (List.range (p.rounds - 16)).foldl
    (fun acc j =>
      acc ++ [(acc.getD j 0 + smallSigma0 p (acc.getD (j + 1) 0) +
               acc.getD (j + 9) 0 + smallSigma1 p (acc.getD (j + 14) 0)) % 2 ^ p.wordBits])
    w16

/-- One compression round. -/
def roundStep (p : Params) (s : Hash8) (kw : Nat) : Hash8 :=
  let M := 2 ^ p.wordBits
  let t1 := (s.h + bigSigma1 p s.e + ((s.e &&& s.f) ^^^ ((s.e ^^^ (M - 1)) &&& s.g)) + kw) % M
  let t2 := (bigSigma0 p s.a + ((s.a &&& s.b) ^^^ (s.a &&& s.c) ^^^ (s.b &&& s.c))) % M
  { a := (t1 + t2) % M, b := s.a, c := s.b, d := s.c,
    e := (s.d + t1) % M, f := s.e, g := s.f, h := s.g }

/-- Compress one message block into the chaining state. -/
def processBlock (p : Params) (st : Hash8) (block : List Nat) : Hash8 :=
  let M := 2 ^ p.wordBits
  let w := extendW p (toWords p block)
  let kw := (p.K.zip w).map (fun x => (x.1 + x.2) % M)
  let fin := kw.foldl (roundStep p) st
  { a := (st.a + fin.a) % M, b := (st.b + fin.b) % M, c := (st.c + fin.c) % M,
    d := (st.d + fin.d) % M, e := (st.e + fin.e) % M, f := (st.f + fin.f) % M,
    g := (st.g + fin.g) % M, h := (st.h + fin.h) % M }

/-- Serialize the final state big-endian, word by word. -/
def digestBytes (p : Params) (s : Hash8) : List Nat :=
  let k := p.wordBits / 8
  beBytes k s.a ++ beBytes k s.b ++ beBytes k s.c ++ beBytes k s.d ++
  beBytes k s.e ++ beBytes k s.f ++ beBytes k s.g ++ beBytes k s.h

/-- Full SHA-2 digest of a byte sequence. -/
def hashBytes (p : Params) (msg : List Nat) : List Nat :=
  digestBytes p ((chunksOf p.blockBytes (padMessage p msg)).foldl (processBlock p) p.H0)

/-- SHA-256 round constants (FIPS 180-4), written in decimal: the first
32 fractional bits of the cube roots of the first 64 primes. -/
def K256 : List Nat :=
  [1116352408, 1899447441, 3049323471, 3921009573, 961987163, 1508970993,
   2453635748, 2870763221, 3624381080, 310598401, 607225278, 1426881987,
   1925078388, 2162078206, 2614888103, 3248222580, 3835390401, 4022224774,
   264347078, 604807628, 770255983, 1249150122, 1555081692, 1996064986,
   2554220882, 2821834349, 2952996808, 3210313671, 3336571891, 3584528711,
   113926993, 338241895, 666307205, 773529912, 1294757372, 1396182291,
   1695183700, 1986661051, 2177026350, 2456956037, 2730485921, 2820302411,
   3259730800, 3345764771, 3516065817, 3600352804, 4094571909, 275423344,
   430227734, 506948616, 659060556, 883997877, 958139571, 1322822218,
   1537002063, 1747873779, 1955562222, 2024104815, 2227730452, 2361852424,
   2428436474, 2756734187, 3204031479, 3329325298]

def sha256Params : Params where
  wordBits := 32
  blockBytes := 64
  lenBytes := 8
  rounds := 64
  bs0 := (2, 13, 22)
  bs1 := (6, 11, 25)
  ss0 := (7, 18, 3)
  ss1 := (17, 19, 10)
  K := K256
  H0 := { a := 1779033703, b := 3144134277, c := 1013904242, d := 2773480762,
          e := 1359893119, f := 2600822924, g := 528734635, h := 1541459225 }

/-- SHA-512 round constants (FIPS 180-4), written in decimal: the first
64 fractional bits of the cube roots of the first 80 primes. -/
def K512 : List Nat :=
  [4794697086780616226, 8158064640168781261, 13096744586834688815, 16840607885511220156,
   4131703408338449720, 6480981068601479193, 10538285296894168987, 12329834152419229976,
   15566598209576043074, 1334009975649890238, 2608012711638119052, 6128411473006802146,
   8268148722764581231, 9286055187155687089, 11230858885718282805, 13951009754708518548,
   16472876342353939154, 17275323862435702243, 1135362057144423861, 2597628984639134821,
   3308224258029322869, 5365058923640841347, 6679025012923562964, 8573033837759648693,
   10970295158949994411, 12119686244451234320, 12683024718118986047, 13788192230050041572,
   14330467153632333762, 15395433587784984357, 489312712824947311, 1452737877330783856,
   2861767655752347644, 3322285676063803686, 5560940570517711597, 5996557281743188959,
   7280758554555802590, 8532644243296465576, 9350256976987008742, 10552545826968843579,
   11727347734174303076, 12113106623233404929, 14000437183269869457, 14369950271660146224,
   15101387698204529176, 15463397548674623760, 17586052441742319658, 1182934255886127544,
   1847814050463011016, 2177327727835720531, 2830643537854262169, 3796741975233480872,
   4115178125766777443, 5681478168544905931, 6601373596472566643, 7507060721942968483,
   8399075790359081724, 8693463985226723168, 9568029438360202098, 10144078919501101548,
   10430055236837252648, 11840083180663258601, 13761210420658862357, 14299343276471374635,
   14566680578165727644, 15097957966210449927, 16922976911328602910, 17689382322260857208,
   500013540394364858, 748580250866718886, 1242879168328830382, 1977374033974150939,
   2944078676154940804, 3659926193048069267, 4368137639120453308, 4836135668995329356,
   5532061633213252278, 6448918945643986474, 6902733635092675308, 7801388544844847127]

def sha512Params : Params where
  wordBits := 64
  blockBytes := 128
  lenBytes := 16
  rounds := 80
  bs0 := (28, 34, 39)
  bs1 := (14, 18, 41)
  ss0 := (1, 8, 7)
  ss1 := (19, 61, 6)
  K := K512
  H0 := { a := 7640891576956012808, b := 13503953896175478587, c := 4354685564936845355,
          d := 11912009170470909681, e := 5840696475078001361, f := 11170449401992604703,
          g := 2270897969802886507, h := 6620516959819538809 }

end SHA2

/-- UTF-8 encoding of one character (the bytes of a Go string). -/
def utf8Bytes (c : Char) : List Nat :=
  let n := c.toNat
  if n < 128 then [n]
  else if n < 2048 then [192 + n / 64, 128 + n % 64]
  else if n < 65536 then [224 + n / 4096, 128 + n / 64 % 64, 128 + n % 64]
  else [240 + n / 262144, 128 + n / 4096 % 64, 128 + n / 64 % 64, 128 + n % 64]

/-- The byte sequence of a Go string (`[]byte(s)`). -/
def strBytes (s : String) : List Nat := (s.toList.map utf8Bytes).flatten

/-! ## Package utils: hash helpers (src/unnamed/part_008) -/

namespace Utils

/-- `utils.ComputeSHA256`: lowercase hex of the SHA-256 digest of `data`. -/
def ComputeSHA256 (data : List Nat) : String :=
  String.mk (hexChars (SHA2.hashBytes SHA2.sha256Params data))

/-- `utils.ComputeSHA512`: lowercase hex of the SHA-512 digest of `data`. -/
def ComputeSHA512 (data : List Nat) : String :=
  String.mk (hexChars (SHA2.hashBytes SHA2.sha512Params data))

/-- `utils.VerifyHash`: recompute the digest for the given algorithm and
compare it with the declared hex digest. -/
def VerifyHash (data : List Nat) (algorithm expected : String) : Except String Unit :=
  let actual? : Except String String :=
    if algorithm = "sha256" then .ok (ComputeSHA256 data)
    else if algorithm = "sha512" then .ok (ComputeSHA512 data)
    else .error ("unsupported hash algorithm: " ++ algorithm)
  match actual? with
  | .error e => .error e
  | .ok actual =>
    if actual ≠ expected then
      .error ("hash mismatch: expected " ++ expected ++ ", got " ++ actual)
    else .ok ()

/-- `utils.URLHash`: hex of the first 8 bytes of the SHA-256 of the URL. -/
def URLHash (url : String) : String :=
  String.mk (hexChars ((SHA2.hashBytes SHA2.sha256Params (strBytes url)).take 8))

end Utils

/-! ## Go path/filepath on unix: Clean, Base, Join

External collaborator (Go standard library).  `fpClean` implements the
lexical cleaning algorithm of `filepath.Clean` in its equivalent
element-stack form: split on the separator, drop empty and `.` elements,
let `..` pop the last pushed element (or survive at the front of a
relative path, or vanish at the root of an absolute one). -/

/-- Stack-based core of `filepath.Clean`: `stk` holds the output elements
in reverse. -/
def cleanCore (rooted : Bool) : List Str → List Str → List Str
  | stk, [] => stk.reverse
  | stk, e :: es =>
    if e = [] ∨ e = ['.'] then cleanCore rooted stk es
    else if e = ['.', '.'] then
      match stk with
      | top :: rest =>
        if top = ['.', '.'] then cleanCore rooted (e :: top :: rest) es
        else cleanCore rooted rest es
      | [] => if rooted then cleanCore rooted [] es else cleanCore rooted [e] es
    else cleanCore rooted (e :: stk) es

/-- Does the path start with the separator? -/
def startsSlash (cs : Str) : Bool :=
  match cs with
  | c :: _ => c == '/'
  | [] => false

/-- `filepath.Clean` (unix). -/
def fpClean (s : String) : String :=
  if s = "" then "."
  else
    let cs := s.toList
    let rooted := startsSlash cs
    let out := cleanCore rooted [] (splitOnChar '/' cs)
    let body := intercalateChar '/' out
    if rooted then String.mk ('/' :: body)
    else if body = [] then "." else String.mk body

/-- `filepath.Base` (unix): last element after dropping trailing
separators; `"."` for the empty path, `"/"` when only separators remain. -/
def fpBase (s : String) : String :=
  if s = "" then "."
  else
    let rs := s.toList.reverse.dropWhile (fun c => c == '/')
    if rs = [] then "/"
    else String.mk ((rs.takeWhile (fun c => !(c == '/'))).reverse)

/-- `filepath.Join` (unix): join from the first non-empty element with
separators and clean the result. -/
def fpJoin : List String → String
  | [] => ""
  | e :: rest => if e = "" then fpJoin rest else fpClean (String.intercalate "/" (e :: rest))

/-! ## Package cache (src/internal/cache/cache.go)

The cache root directory is injected as a parameter (the code reads it
from the environment or the platform defaults; the claims quantify over
it). -/

namespace Cache

/-- `cache.GetArtifactCacheDir`. -/
def GetArtifactCacheDir (cacheDir : String) : String := fpJoin [cacheDir, "artifacts"]

/-- `cache.GetGitReposCacheDir`. -/
def GetGitReposCacheDir (cacheDir : String) : String := fpJoin [cacheDir, "git-repos"]

/-- `cache.GetLockFileCacheDir`. -/
def GetLockFileCacheDir (cacheDir : String) : String := fpJoin [cacheDir, "lockfiles"]

/-- `cache.GetArtifactCachePath`: artifacts dir joined with the sanitized
artifact name (`filepath.Base(filepath.Clean(name))`) and `{version}.zip`. -/
def GetArtifactCachePath (cacheDir name version : String) : String :=
  fpJoin [GetArtifactCacheDir cacheDir, fpBase (fpClean name), version ++ ".zip"]

/-- The cache path exactly as the specification sentence words it: the
artifacts cache subdirectory joined with `{name}/{version}.zip`, using
the artifact name verbatim. -/
def specArtifactCachePath (cacheDir name version : String) : String :=
  fpJoin [GetArtifactCacheDir cacheDir, name, version ++ ".zip"]

/-- `cache.GetGitRepoCachePath`: git-repos dir joined with the URL hash. -/
def GetGitRepoCachePath (cacheDir repoURL : String) : String :=
  fpJoin [GetGitReposCacheDir cacheDir, Utils.URLHash repoURL]

/-! Directory-set state for `EnsureCacheDirs`.  The filesystem is the set
of existing directories.  Modelled from the spec: `utils.EnsureDir` is
not under src/; it is `os.MkdirAll` semantics — create the directory and
every missing parent, succeed when they already exist. -/

/-- Add one directory if missing. -/
def insertDir (d : String) (fs : List String) : List String :=
  if d ∈ fs then fs else d :: fs

/-- The chain of ancestor directories created by `os.MkdirAll`. -/
def dirChain (path : String) : List String :=
  let segs := splitOnChar '/' path.toList
  (List.range segs.length).map (fun i => String.mk (intercalateChar '/' (segs.take (i + 1))))

/-- Modelled from the spec: `utils.EnsureDir` = `os.MkdirAll`. -/
def EnsureDir (path : String) (fs : List String) : List String :=
  (dirChain path).foldl (fun acc d => insertDir d acc) fs

/-- `cache.EnsureCacheDirs`: ensure the root, artifacts, git-repos and
lockfiles cache directories exist. -/
def EnsureCacheDirs (cacheDir : String) (fs : List String) : List String :=
  [cacheDir, GetArtifactCacheDir cacheDir, GetGitReposCacheDir cacheDir,
   GetLockFileCacheDir cacheDir].foldl (fun acc d => EnsureDir d acc) fs

end Cache

/-! ## Package commands (src/unnamed/part_003) -/

namespace Commands

/-- `commands.runInstall`: the current implementation prints a
placeholder and unconditionally returns the error `not yet implemented`,
whatever arguments it receives. -/
def runInstall (_args : List String) : Except String Unit :=
  Except.error "not yet implemented"

end Commands

/-! ## Package handlers: the agent handler (src/unnamed/part_004)

The filesystem is a list of path bindings to nodes.  The zip payload and
the metadata collaborators (`utils.ListZipFiles`, `utils.ReadZipFile`,
`metadata.Parse`, `metadata.ValidateWithFiles` — their sources are not
under src/) are modelled from the spec: a zip is either unreadable or a
list of named entries, and the `metadata.toml` entry either decodes to a
metadata value or fails to parse. -/

namespace Handlers

inductive FsNode
  | dir
  | file
deriving DecidableEq

abbrev FS := List (String × FsNode)

def lookupFS (fs : FS) (p : String) : Option FsNode :=
  match fs with
  | [] => none
  | (q, n) :: rest => if q = p then some n else lookupFS rest p

/-- `utils.IsDirectory`. -/
def IsDirectory (fs : FS) (p : String) : Bool :=
  match lookupFS fs p with
  | some FsNode.dir => true
  | _ => false

/-- Whether `q` is `p` itself or lies below `p`. -/
def withinPath (p q : String) : Bool := q == p || q.startsWith (p ++ "/")

/-- `os.RemoveAll p`: drop `p` and everything below it. -/
def removeAll (p : String) (fs : FS) : FS :=
  fs.filter (fun e => !withinPath p e.1)

/-- Modelled from the spec: `utils.EnsureDir` = `os.MkdirAll` on the
node filesystem. -/
def ensureDirFS (p : String) (fs : FS) : FS :=
  (Cache.dirChain p).foldl
    (fun acc d => if lookupFS acc d = none then (d, FsNode.dir) :: acc else acc) fs

/-- Modelled from the spec: artifact metadata (`metadata.toml`).  The
`[artifact]` section carries name and type; agents have an `[agent]`
section naming the prompt file; `declaredFiles` are the files the
metadata references for `ValidateWithFiles`. -/
structure ArtifactMeta where
  name : String
  type : String
deriving DecidableEq

structure AgentSection where
  promptFile : String
deriving DecidableEq

structure Metadata where
  artifact : ArtifactMeta
  agent : Option AgentSection
  declaredFiles : List String
deriving DecidableEq

/-- Modelled from the spec: the bytes of one zip entry — either opaque
payload bytes or a `metadata.toml` body that decodes (or fails to). -/
inductive FileData
  | opaqueBytes
  | metaToml (m : Option Metadata)
deriving DecidableEq

/-- Modelled from the spec: a zip payload is unreadable (`none`) or a
list of named entries. -/
abbrev Zip := Option (List (String × FileData))

/-- Modelled from the spec: `utils.ListZipFiles`. -/
def ListZipFiles (z : Zip) : Except String (List String) :=
  match z with
  | none => .error "invalid zip"
  | some es => .ok (es.map (fun e => e.1))

def containsFile (files : List String) (name : String) : Bool := files.contains name

/-- Modelled from the spec: `utils.ReadZipFile`. -/
def ReadZipFile (z : Zip) (name : String) : Except String FileData :=
  match z with
  | none => .error "invalid zip"
  | some es =>
    match es.find? (fun e => e.1 == name) with
    | some e => .ok e.2
    | none => .error ("file not found in zip: " ++ name)

/-- Modelled from the spec: `metadata.Parse`. -/
def parseMetadata (d : FileData) : Except String Metadata :=
  match d with
  | .metaToml (some m) => .ok m
  | _ => .error "invalid metadata"

/-- Modelled from the spec: `metadata.ValidateWithFiles` checks every
file the metadata declares is present in the zip listing. -/
def ValidateWithFiles (m : Metadata) (files : List String) : Except String Unit :=
  if m.declaredFiles.all (fun f => containsFile files f) then .ok ()
  else .error "declared file missing"

/-- `handlers.AgentHandler`. -/
structure AgentHandler where
  metadata : Metadata

/-- `AgentHandler.GetInstallPath`: `agents/{name}` relative to the base. -/
def AgentHandler.GetInstallPath (h : AgentHandler) : String :=
  fpJoin ["agents", h.metadata.artifact.name]

/-- `AgentHandler.Validate`, statement for statement from the source. -/
def AgentHandler.Validate (_h : AgentHandler) (zipData : Zip) : Except String Unit :=
  match ListZipFiles zipData with
  | .error e => .error ("failed to list zip files: " ++ e)
  | .ok files =>
    if !containsFile files "metadata.toml" then .error "metadata.toml not found in zip"
    else
      match ReadZipFile zipData "metadata.toml" with
      | .error e => .error ("failed to read metadata.toml: " ++ e)
      | .ok metadataBytes =>
        match parseMetadata metadataBytes with
        | .error e => .error ("failed to parse metadata: " ++ e)
        | .ok meta =>
          match ValidateWithFiles meta files with
          | .error e => .error ("metadata validation failed: " ++ e)
          | .ok _ =>
            if meta.artifact.type ≠ "agent" then
              .error ("artifact type mismatch: expected agent, got " ++ meta.artifact.type)
            else
              match meta.agent with
              | none => .error "[agent] section missing in metadata"
              | some ag =>
                if !containsFile files ag.promptFile then
                  .error ("prompt file not found in zip: " ++ ag.promptFile)
                else .ok ()

/-- Modelled from the spec: `utils.ExtractZip` writes every entry below
the destination directory. -/
def ExtractZip (z : Zip) (dest : String) (fs : FS) : Except String FS :=
  match z with
  | none => .error "invalid zip"
  | some es => .ok (es.foldl (fun acc e => (fpJoin [dest, e.1], FsNode.file) :: acc) fs)

/-- `AgentHandler.Install`: validate, then remove any existing install,
create the directory and extract.  Returns the result together with the
filesystem after the call. -/
def AgentHandler.Install (h : AgentHandler) (zipData : Zip) (targetBase : String) (fs : FS) :
    Except String Unit × FS :=
  match h.Validate zipData with
  | .error e => (.error ("validation failed: " ++ e), fs)
  | .ok _ =>
    let installPath := fpJoin [targetBase, h.GetInstallPath]
    let fs1 := if IsDirectory fs installPath then removeAll installPath fs else fs
    let fs2 := ensureDirFS installPath fs1
    match ExtractZip zipData installPath fs2 with
    | .error e => (.error ("failed to extract zip: " ++ e), fs2)
    | .ok fs3 => (.ok (), fs3)

/-- `AgentHandler.Remove`: succeed without touching anything when the
install path is not a directory, else remove the subtree. -/
def AgentHandler.Remove (h : AgentHandler) (targetBase : String) (fs : FS) :
    Except String Unit × FS :=
  let installPath := fpJoin [targetBase, h.GetInstallPath]
  if IsDirectory fs installPath then (.ok (), removeAll installPath fs)
  else (.ok (), fs)

end Handlers

/-! ## Package github: tree URLs (src/unnamed/part_004)

`ParseTreeURL` trims one trailing separator and matches the anchored
pattern `https?://github.com/([^/]+)/([^/]+)/tree/([^/]+)(?:/(.*))?`.
URLs are character lists; the regular expression is realized by the
equivalent split-on-separator decomposition (every group before the path
is a non-empty separator-free segment, so the match is forced). -/

namespace Github

def httpsChars : Str := "https://".toList

def httpChars : Str := "http://".toList

def ghChars : Str := "github.com/".toList

def treeChars : Str := "tree".toList

structure TreeURL where
  owner : Str
  repo : Str
  ref : Str
  path : Str
deriving DecidableEq

/-- `strings.TrimSuffix(url, "/")`: drop one trailing separator. -/
def trimOneTrailingSlash (s : Str) : Str :=
  if s.getLast? = some '/' then s.dropLast else s

/-- The segment decomposition of the tree-URL pattern
`([^/]+)/([^/]+)/tree/([^/]+)(?:/(.*))?` anchored at both ends.  Every
group before the path is a non-empty separator-free segment, so the
regex match is exactly this split decomposition. -/
def parseSegs (segs : List Str) : Option TreeURL :=
  match segs with
  | owner :: repo :: tree :: ref :: pathSegs =>
    if owner ≠ [] ∧ repo ≠ [] ∧ tree = treeChars ∧ ref ≠ [] then
      some { owner := owner, repo := repo, ref := ref,
             path := intercalateChar '/' pathSegs }
    else none
  | _ => none

/-- The part of the tree-URL pattern after the scheme. -/
def parseAfterScheme (r : Str) : Option TreeURL :=
  match dropPat ghChars r with
  | none => none
  | some r2 => parseSegs (splitOnChar '/' r2)

/-- `github.ParseTreeURL`. -/
def ParseTreeURL (url : Str) : Option TreeURL :=
  let u := trimOneTrailingSlash url
  match dropPat httpsChars u with
  | some r => parseAfterScheme r
  | none =>
    match dropPat httpChars u with
    | some r => parseAfterScheme r
    | none => none

/-- `TreeURL.String`: `https://github.com/{owner}/{repo}/tree/{ref}`,
with `/{path}` appended when the path is non-empty. -/
def TreeURL.render (t : TreeURL) : Str :=
  httpsChars ++ (ghChars ++ (t.owner ++ '/' :: (t.repo ++ '/' :: (treeChars ++ '/' ::
    (t.ref ++ (if t.path = [] then [] else '/' :: t.path))))))

end Github

/-! ## Session cache (src/internal/cache/sessions.go)

Files are modelled as path-to-content bindings; directory creation by
`utils.EnsureDir` touches no file and is not represented.  The current
wall-clock reading (`time.Now().UTC().Format(time.RFC3339)`) is an
explicit argument. -/

namespace Sessions

abbrev FileFS := List (String × Str)

def lookupFile (fs : FileFS) (p : String) : Option Str :=
  match fs with
  | [] => none
  | (q, c) :: rest => if q = p then some c else lookupFile rest p

def updateFile (fs : FileFS) (p : String) (content : Str) : FileFS :=
  match fs with
  | [] => [(p, content)]
  | (q, c) :: rest =>
    if q = p then (p, content) :: rest else (q, c) :: updateFile rest p content

structure SessionCache where
  filePath : String
deriving DecidableEq

/-- `cache.NewSessionCache`: the per-client session file lives directly
under the cache root. -/
def NewSessionCache (cacheDir clientID : String) : SessionCache :=
  { filePath := fpJoin [cacheDir, clientID ++ "-sessions"] }

/-- The lines a `bufio.Scanner` yields: split on newlines, with no final
empty token for a trailing newline. -/
def scanLines (content : Str) : List Str :=
  let parts := splitOnChar '\n' content
  if parts.getLast? = some [] then parts.dropLast else parts

/-- `strings.SplitN(line, " ", 2)[0]`: the part before the first space. -/
def firstTok (line : Str) : Str := line.takeWhile (fun c => !(c == ' '))

/-- `SessionCache.HasSession`. -/
def HasSession (s : SessionCache) (sessionID : String) (fs : FileFS) : Bool :=
  if sessionID = "" then false
  else
    match lookupFile fs s.filePath with
    | none => false
    | some content =>
      (scanLines content).any (fun line => firstTok line == sessionID.toList)

/-- `SessionCache.RecordSession`: no write for the empty id, otherwise
append `{id} {timestamp}\n` to the session file (creating it). -/
def RecordSession (s : SessionCache) (sessionID tsRFC3339 : String) (fs : FileFS) : FileFS :=
  if sessionID = "" then fs
  else
    let entry := sessionID.toList ++ ' ' :: tsRFC3339.toList ++ ['\n']
    let old := (lookupFile fs s.filePath).getD []
    updateFile fs s.filePath (old ++ entry)

end Sessions

/-! ## Lock model

Modelled from the spec: the lock-file parser and serializer are not
under src/ (plan.md schedules `internal/lockfile` for a later phase);
this model follows the embedded `sleuth.lock` specification and spec
sections 3 and 4.1.  Documents are TOML values: strings, integers,
tables (ordered key/value lists) and arrays.  `parse` fails on unknown
major format versions, a path scope without a repo scope, missing or
multiple source tables, missing required source fields, absent
http hashes and non-SHA git refs; `serialize` emits the artifact tables
with optional fields omitted when absent. -/

namespace Lock

inductive Toml
  | str (s : String)
  | num (n : Nat)
  | table (kvs : List (String × Toml))
  | arr (vs : List Toml)

def tlookup (k : String) : List (String × Toml) → Option Toml
  | [] => none
  | (k2, v) :: rest => if k2 = k then some v else tlookup k rest

structure HttpSource where
  url : String
  hashes : List (String × String)
  size : Option Nat
  uploadedAt : Option String
deriving DecidableEq

structure GitSource where
  url : String
  ref : String
  subdirectory : Option String
deriving DecidableEq

structure PathSource where
  path : String
deriving DecidableEq

inductive Source
  | http (s : HttpSource)
  | git (s : GitSource)
  | path (s : PathSource)
deriving DecidableEq

inductive Scope
  | global
  | repo (url : String)
  | path (repoUrl relPath : String)
deriving DecidableEq

structure DependencyRef where
  name : String
  version : Option String
deriving DecidableEq

structure Artifact where
  name : String
  version : String
  type : String
  clients : Option (List String)
  source : Source
  scope : Scope
  dependencies : List DependencyRef
deriving DecidableEq

structure LockFile where
  lockVersion : String
  version : String
  createdBy : String
  artifacts : List Artifact
deriving DecidableEq

/-! ### Serialization -/

def serializeDep (d : DependencyRef) : Toml :=
  Toml.table ([("name", Toml.str d.name)] ++
    (match d.version with
     | some v => [("version", Toml.str v)]
     | none => []))

def serializeHttp (s : HttpSource) : Toml :=
  Toml.table ([("url", Toml.str s.url),
               ("hashes", Toml.table (s.hashes.map (fun h => (h.1, Toml.str h.2))))] ++
    (match s.size with
     | some n => [("size", Toml.num n)]
     | none => []) ++
    (match s.uploadedAt with
     | some t => [("uploaded-at", Toml.str t)]
     | none => []))

def serializeGit (s : GitSource) : Toml :=
  Toml.table ([("url", Toml.str s.url), ("ref", Toml.str s.ref)] ++
    (match s.subdirectory with
     | some d => [("subdirectory", Toml.str d)]
     | none => []))

def sourcePart : Source → List (String × Toml)
  | .http h => [("source-http", serializeHttp h)]
  | .git g => [("source-git", serializeGit g)]
  | .path p => [("source-path", Toml.table [("path", Toml.str p.path)])]

def scopePart : Scope → List (String × Toml)
  | .global => []
  | .repo u => [("repo", Toml.str u)]
  | .path u rel => [("repo", Toml.str u), ("path", Toml.str rel)]

def clientsPart : Option (List String) → List (String × Toml)
  | none => []
  | some cs => [("clients", Toml.arr (cs.map Toml.str))]

def depsPart : List DependencyRef → List (String × Toml)
  | [] => []
  | d :: ds => [("dependencies", Toml.arr ((d :: ds).map serializeDep))]

def artifactKvs (a : Artifact) : List (String × Toml) :=
  [("name", Toml.str a.name), ("version", Toml.str a.version), ("type", Toml.str a.type)] ++
  clientsPart a.clients ++ sourcePart a.source ++ scopePart a.scope ++ depsPart a.dependencies

def serializeArtifact (a : Artifact) : Toml := Toml.table (artifactKvs a)

def serialize (lf : LockFile) : Toml :=
  Toml.table [("lock-version", Toml.str lf.lockVersion),
              ("version", Toml.str lf.version),
              ("created-by", Toml.str lf.createdBy),
              ("artifacts", Toml.arr (lf.artifacts.map serializeArtifact))]

/-! ### Parsing -/

def getStr (kvs : List (String × Toml)) (k : String) : Except String String :=
  match tlookup k kvs with
  | some (Toml.str s) => .ok s
  | some _ => .error ("expected string for key " ++ k)
  | none => .error ("missing key " ++ k)

def getOptStr (kvs : List (String × Toml)) (k : String) : Except String (Option String) :=
  match tlookup k kvs with
  | some (Toml.str s) => .ok (some s)
  | some _ => .error ("expected string for key " ++ k)
  | none => .ok none

def getOptNat (kvs : List (String × Toml)) (k : String) : Except String (Option Nat) :=
  match tlookup k kvs with
  | some (Toml.num n) => .ok (some n)
  | some _ => .error ("expected integer for key " ++ k)
  | none => .ok none

def parseStrList : List Toml → Except String (List String)
  | [] => .ok []
  | Toml.str s :: rest => (parseStrList rest).map (fun r => s :: r)
  | _ :: _ => .error "expected string element"

def parseStrPairs : List (String × Toml) → Except String (List (String × String))
  | [] => .ok []
  | (k, Toml.str v) :: rest => (parseStrPairs rest).map (fun r => (k, v) :: r)
  | _ :: _ => .error "expected string value"

def isHexDigit (c : Char) : Bool := hexTable.contains c

/-- A full commit SHA: forty lowercase hex digits. -/
def isFullSha (ref : String) : Bool :=
  ref.toList.length == 40 && ref.toList.all isHexDigit

def parseHttp (t : Toml) : Except String HttpSource :=
  match t with
  | Toml.table kvs =>
    match getStr kvs "url" with
    | .error e => .error e
    | .ok url =>
      match tlookup "hashes" kvs with
      | some (Toml.table hs) =>
        match parseStrPairs hs with
        | .error e => .error e
        | .ok hashes =>
          if hashes = [] then .error "hashes required for http source"
          else
            match getOptNat kvs "size" with
            | .error e => .error e
            | .ok size =>
              match getOptStr kvs "uploaded-at" with
              | .error e => .error e
              | .ok up => .ok { url := url, hashes := hashes, size := size, uploadedAt := up }
      | some _ => .error "hashes must be a table"
      | none => .error "missing hashes for http source"
  | _ => .error "source-http must be a table"

def parseGit (t : Toml) : Except String GitSource :=
  match t with
  | Toml.table kvs =>
    match getStr kvs "url" with
    | .error e => .error e
    | .ok url =>
      match getStr kvs "ref" with
      | .error e => .error e
      | .ok ref =>
        if !isFullSha ref then .error "git ref must be a full commit SHA"
        else
          match getOptStr kvs "subdirectory" with
          | .error e => .error e
          | .ok sub => .ok { url := url, ref := ref, subdirectory := sub }
  | _ => .error "source-git must be a table"

def parsePath (t : Toml) : Except String PathSource :=
  match t with
  | Toml.table kvs =>
    match getStr kvs "path" with
    | .error e => .error e
    | .ok p => .ok { path := p }
  | _ => .error "source-path must be a table"

def parseSource (kvs : List (String × Toml)) : Except String Source :=
  match tlookup "source-http" kvs, tlookup "source-git" kvs, tlookup "source-path" kvs with
  | some h, none, none => (parseHttp h).map Source.http
  | none, some g, none => (parseGit g).map Source.git
  | none, none, some p => (parsePath p).map Source.path
  | none, none, none => .error "missing source table"
  | _, _, _ => .error "multiple source variants populated"

def parseScope (kvs : List (String × Toml)) : Except String Scope :=
  match getOptStr kvs "repo" with
  | .error e => .error e
  | .ok none =>
    match getOptStr kvs "path" with
    | .error e => .error e
    | .ok (some _) => .error "path scope requires a repo scope"
    | .ok none => .ok Scope.global
  | .ok (some u) =>
    match getOptStr kvs "path" with
    | .error e => .error e
    | .ok none => .ok (Scope.repo u)
    | .ok (some p) => .ok (Scope.path u p)

def parseDep (t : Toml) : Except String DependencyRef :=
  match t with
  | Toml.table kvs =>
    match getStr kvs "name" with
    | .error e => .error e
    | .ok n =>
      match getOptStr kvs "version" with
      | .error e => .error e
      | .ok v => .ok { name := n, version := v }
  | _ => .error "dependency must be a table"

def parseDepList : List Toml → Except String (List DependencyRef)
  | [] => .ok []
  | t :: rest =>
    match parseDep t with
    | .error e => .error e
    | .ok d => (parseDepList rest).map (fun r => d :: r)

def parseDeps (kvs : List (String × Toml)) : Except String (List DependencyRef) :=
  match tlookup "dependencies" kvs with
  | none => .ok []
  | some (Toml.arr vs) => parseDepList vs
  | some _ => .error "dependencies must be an array"

def parseClients (kvs : List (String × Toml)) : Except String (Option (List String)) :=
  match tlookup "clients" kvs with
  | none => .ok none
  | some (Toml.arr vs) => (parseStrList vs).map some
  | some _ => .error "clients must be an array"

def parseArtifact (t : Toml) : Except String Artifact :=
  match t with
  | Toml.table kvs =>
    match getStr kvs "name" with
    | .error e => .error e
    | .ok name =>
      match getStr kvs "version" with
      | .error e => .error e
      | .ok version =>
        match getStr kvs "type" with
        | .error e => .error e
        | .ok ty =>
          match parseClients kvs with
          | .error e => .error e
          | .ok clients =>
            match parseSource kvs with
            | .error e => .error e
            | .ok source =>
              match parseScope kvs with
              | .error e => .error e
              | .ok scope =>
                match parseDeps kvs with
                | .error e => .error e
                | .ok deps =>
                  .ok { name := name, version := version, type := ty, clients := clients,
                        source := source, scope := scope, dependencies := deps }
  | _ => .error "artifact must be a table"

def parseArtifactList : List Toml → Except String (List Artifact)
  | [] => .ok []
  | t :: rest =>
    match parseArtifact t with
    | .error e => .error e
    | .ok a => (parseArtifactList rest).map (fun r => a :: r)

/-- The major component of a format version string. -/
def majorOf (v : String) : String := String.mk ((splitOnChar '.' v.toList).headD [])

def parse (t : Toml) : Except String LockFile :=
  match t with
  | Toml.table kvs =>
    match getStr kvs "lock-version" with
    | .error e => .error e
    | .ok lockVersion =>
      if majorOf lockVersion ≠ "1" then .error "unknown major lock-version"
      else
        match getStr kvs "version" with
        | .error e => .error e
        | .ok version =>
          match getStr kvs "created-by" with
          | .error e => .error e
          | .ok createdBy =>
            match tlookup "artifacts" kvs with
            | none => .ok { lockVersion := lockVersion, version := version,
                            createdBy := createdBy, artifacts := [] }
            | some (Toml.arr vs) =>
              (parseArtifactList vs).map (fun arts =>
                { lockVersion := lockVersion, version := version,
                  createdBy := createdBy, artifacts := arts })
            | some _ => .error "artifacts must be an array"
  | _ => .error "lock file must be a table"

/-! ### Validity -/

def ValidSource : Source → Bool
  | .http h => !h.hashes.isEmpty
  | .git g => isFullSha g.ref
  | .path _ => true

/-- A valid lock file: known major format version and every artifact
source carries the integrity data its kind requires. -/
def ValidLockFile (lf : LockFile) : Bool :=
  majorOf lf.lockVersion == "1" && lf.artifacts.all (fun a => ValidSource a.source)

end Lock

/-! # Theorems -/

/-! ## Hash verification (claim C1) -/

/-- C1: for every byte sequence and declared hex digest under sha256 or
sha512, `utils.VerifyHash` succeeds exactly when the digest computed
over the bytes equals the declared digest; in every other case —
including any mismatch — it returns an error rather than the bytes. -/
theorem verifyHash_ok_iff_digest_eq (data : List Nat) (algorithm expected : String) :
    Utils.VerifyHash data algorithm expected = Except.ok () ↔
      ((algorithm = "sha256" ∧ Utils.ComputeSHA256 data = expected) ∨
       (algorithm = "sha512" ∧ Utils.ComputeSHA512 data = expected)) := by
  unfold Utils.VerifyHash
  by_cases h1 : algorithm = "sha256"
  · subst h1
    by_cases he : Utils.ComputeSHA256 data = expected <;> simp [he]
  · by_cases h2 : algorithm = "sha512"
    · subst h2
      by_cases he : Utils.ComputeSHA512 data = expected <;> simp [h1, he]
    · simp [h1, h2]

/-! ## The install command stub (claim C3) -/

/-- C3: the claim says the install run proceeds through Resolve, Fetch,
Install and Reconcile and that some well-formed lock file installs
without error; the checked-in `runInstall` instead returns the error
`not yet implemented` for every invocation, so no run ever completes
without error. -/
theorem runInstall_always_fails (args : List String) :
    Commands.runInstall args = Except.error "not yet implemented" := rfl

/-! ## Cache directory creation (claim C7) -/

theorem mem_insertDir_self (d : String) (fs : List String) : d ∈ Cache.insertDir d fs := by
  unfold Cache.insertDir
  split_ifs with h
  · exact h
  · exact List.mem_cons_self d fs

theorem mem_insertDir_of_mem {x d : String} {fs : List String} (h : x ∈ fs) :
    x ∈ Cache.insertDir d fs := by
  unfold Cache.insertDir
  split_ifs
  · exact h
  · exact List.mem_cons_of_mem d h

theorem insertDir_of_mem {d : String} {fs : List String} (h : d ∈ fs) :
    Cache.insertDir d fs = fs := by
  unfold Cache.insertDir
  exact if_pos h

theorem mem_foldl_insert_of_mem {x : String} {fs : List String} (l : List String) (h : x ∈ fs) :
    x ∈ l.foldl (fun acc d => Cache.insertDir d acc) fs := by
  induction l generalizing fs with
  | nil => exact h
  | cons d rest ih => exact ih (mem_insertDir_of_mem h)

theorem mem_foldl_insert_of_mem_list {d : String} {l : List String} (fs : List String)
    (h : d ∈ l) : d ∈ l.foldl (fun acc e => Cache.insertDir e acc) fs := by
  induction l generalizing fs with
  | nil => exact absurd h (List.not_mem_nil d)
  | cons e rest ih =>
    rcases List.mem_cons.mp h with h | h
    · subst h
      exact mem_foldl_insert_of_mem rest (mem_insertDir_self d fs)
    · exact ih (Cache.insertDir e fs) h

theorem foldl_insert_of_all_mem {l fs : List String} (h : ∀ d ∈ l, d ∈ fs) :
    l.foldl (fun acc e => Cache.insertDir e acc) fs = fs := by
  induction l with
  | nil => rfl
  | cons e rest ih =>
    have he : e ∈ fs := h e (List.mem_cons_self e rest)
    simp only [List.foldl_cons, insertDir_of_mem he]
    exact ih (fun d hd => h d (List.mem_cons_of_mem e hd))

theorem mem_ensureDir_of_mem {x : String} {fs : List String} (p : String) (h : x ∈ fs) :
    x ∈ Cache.EnsureDir p fs :=
  mem_foldl_insert_of_mem (Cache.dirChain p) h

theorem mem_ensureDir_of_chain {d p : String} (fs : List String) (h : d ∈ Cache.dirChain p) :
    d ∈ Cache.EnsureDir p fs :=
  mem_foldl_insert_of_mem_list fs h

theorem ensureDir_of_all_mem {p : String} {fs : List String}
    (h : ∀ d ∈ Cache.dirChain p, d ∈ fs) : Cache.EnsureDir p fs = fs :=
  foldl_insert_of_all_mem h

/-- C7: `EnsureCacheDirs` is idempotent — running it a second time on
its own result changes nothing, and it puts the root, artifacts,
git-repos and lockfiles cache directories in place (in this model
directory creation always succeeds). -/
theorem ensureCacheDirs_idempotent (cacheDir : String) (fs : List String) :
    Cache.EnsureCacheDirs cacheDir (Cache.EnsureCacheDirs cacheDir fs) =
      Cache.EnsureCacheDirs cacheDir fs := by
  show Cache.EnsureCacheDirs cacheDir
      (Cache.EnsureDir (Cache.GetLockFileCacheDir cacheDir)
        (Cache.EnsureDir (Cache.GetGitReposCacheDir cacheDir)
          (Cache.EnsureDir (Cache.GetArtifactCacheDir cacheDir)
            (Cache.EnsureDir cacheDir fs)))) = _
  have m1 : ∀ d ∈ Cache.dirChain cacheDir, d ∈ Cache.EnsureCacheDirs cacheDir fs := by
    intro d hd
    exact mem_ensureDir_of_mem _ (mem_ensureDir_of_mem _ (mem_ensureDir_of_mem _
      (mem_ensureDir_of_chain fs hd)))
  have m2 : ∀ d ∈ Cache.dirChain (Cache.GetArtifactCacheDir cacheDir),
      d ∈ Cache.EnsureCacheDirs cacheDir fs := by
    intro d hd
    exact mem_ensureDir_of_mem _ (mem_ensureDir_of_mem _ (mem_ensureDir_of_chain _ hd))
  have m3 : ∀ d ∈ Cache.dirChain (Cache.GetGitReposCacheDir cacheDir),
      d ∈ Cache.EnsureCacheDirs cacheDir fs := by
    intro d hd
    exact mem_ensureDir_of_mem _ (mem_ensureDir_of_chain _ hd)
  have m4 : ∀ d ∈ Cache.dirChain (Cache.GetLockFileCacheDir cacheDir),
      d ∈ Cache.EnsureCacheDirs cacheDir fs := by
    intro d hd
    exact mem_ensureDir_of_chain _ hd
  show Cache.EnsureDir (Cache.GetLockFileCacheDir cacheDir)
      (Cache.EnsureDir (Cache.GetGitReposCacheDir cacheDir)
        (Cache.EnsureDir (Cache.GetArtifactCacheDir cacheDir)
          (Cache.EnsureDir cacheDir (Cache.EnsureCacheDirs cacheDir fs)))) = _
  rw [ensureDir_of_all_mem m1, ensureDir_of_all_mem m2, ensureDir_of_all_mem m3,
    ensureDir_of_all_mem m4]

/-! ## Agent handler (claims C4, C8) -/

/-- C4: the agent handler's `Install` runs `Validate` on the payload
before touching the filesystem; when validation fails, `Install`
returns the wrapped validation error and the target tree is exactly as
it was. -/
theorem agentInstall_validation_failure (h : Handlers.AgentHandler) (z : Handlers.Zip)
    (base : String) (fs : Handlers.FS) (e : String)
    (hv : h.Validate z = Except.error e) :
    h.Install z base fs = (Except.error ("validation failed: " ++ e), fs) := by
  unfold Handlers.AgentHandler.Install
  rw [hv]

theorem agentInstall_validation_failure_witness :
    (Handlers.AgentHandler.Validate
        (Handlers.AgentHandler.mk
          (Handlers.Metadata.mk (Handlers.ArtifactMeta.mk "a" "agent") none []))
        (some []) = Except.error "metadata.toml not found in zip") ∧
      Handlers.AgentHandler.Install
        (Handlers.AgentHandler.mk
          (Handlers.Metadata.mk (Handlers.ArtifactMeta.mk "a" "agent") none []))
        (some []) "/home/u/.claude" [] =
        (Except.error ("validation failed: " ++ "metadata.toml not found in zip"), []) :=
  ⟨rfl, agentInstall_validation_failure _ _ _ _ _ rfl⟩

theorem withinPath_self (p : String) : Handlers.withinPath p p = true := by
  simp [Handlers.withinPath]

theorem lookupFS_removeAll_self (p : String) (fs : Handlers.FS) :
    Handlers.lookupFS (Handlers.removeAll p fs) p = none := by
  induction fs with
  | nil => rfl
  | cons e rest ih =>
    unfold Handlers.removeAll at ih ⊢
    by_cases hw : Handlers.withinPath p e.1 = true
    · simpa [List.filter_cons, hw] using ih
    · have hne : e.1 ≠ p := by
        intro hh
        rw [hh] at hw
        exact hw (withinPath_self p)
      simp only [List.filter_cons, hw]
      simpa [Handlers.lookupFS, hne] using ih

theorem isDirectory_removeAll_self (p : String) (fs : Handlers.FS) :
    Handlers.IsDirectory (Handlers.removeAll p fs) p = false := by
  unfold Handlers.IsDirectory
  rw [lookupFS_removeAll_self]

/-- C8: `Remove` succeeds without touching anything when the install
path does not exist, and a second `Remove` right after a first one
succeeds and leaves the filesystem unchanged. -/
theorem agentRemove_idempotent (h : Handlers.AgentHandler) (base : String) (fs : Handlers.FS) :
    (Handlers.IsDirectory fs (fpJoin [base, h.GetInstallPath]) = false →
        h.Remove base fs = (Except.ok (), fs)) ∧
      h.Remove base (h.Remove base fs).2 = (Except.ok (), (h.Remove base fs).2) := by
  constructor
  · intro hd
    unfold Handlers.AgentHandler.Remove
    simp [hd]
  · by_cases hd : Handlers.IsDirectory fs (fpJoin [base, h.GetInstallPath]) = true
    · unfold Handlers.AgentHandler.Remove
      simp [hd, isDirectory_removeAll_self]
    · have hd' : Handlers.IsDirectory fs (fpJoin [base, h.GetInstallPath]) = false := by
        simpa using hd
      unfold Handlers.AgentHandler.Remove
      simp [hd']

theorem agentRemove_idempotent_witness :
    Handlers.AgentHandler.Remove
        (Handlers.AgentHandler.mk
          (Handlers.Metadata.mk (Handlers.ArtifactMeta.mk "a" "agent") none []))
        "/home/u/.claude" [] = (Except.ok (), []) :=
  (agentRemove_idempotent _ _ _).1 (by decide)

/-! ## Split/join helper lemmas -/

theorem splitOnChar_ne_nil (c : Char) (s : Str) : splitOnChar c s ≠ [] := by
  cases s with
  | nil => simp [splitOnChar]
  | cons d rest =>
    unfold splitOnChar
    split_ifs
    · simp
    · cases hsplit : splitOnChar c rest <;> simp

theorem splitOnChar_single {c : Char} {s : Str} (h : c ∉ s) : splitOnChar c s = [s] := by
  induction s with
  | nil => rfl
  | cons d rest ih =>
    have hd : ¬(d = c) := fun hh => h (hh ▸ List.mem_cons_self d rest)
    have hr : c ∉ rest := fun hh => h (List.mem_cons_of_mem d hh)
    unfold splitOnChar
    rw [if_neg hd, ih hr]

theorem takeWhile_eq_self_of_all {p : Char → Bool} {l : Str} (h : ∀ x ∈ l, p x = true) :
    l.takeWhile p = l := by
  induction l with
  | nil => rfl
  | cons d t ih =>
    rw [List.takeWhile_cons, h d (List.mem_cons_self d t)]
    simp [ih (fun x hx => h x (List.mem_cons_of_mem d hx))]

/-! ## Artifact cache paths (claim C5) -/

theorem fpClean_no_slash {s : String} (h1 : s ≠ "") (h2 : '/' ∉ s.toList) :
    fpClean s = s := by
  obtain ⟨cs⟩ := s
  have h2' : '/' ∉ cs := h2
  have hcs : cs ≠ [] := by
    intro h
    exact h1 (by rw [h])
  have hsplit : splitOnChar '/' cs = [cs] := splitOnChar_single h2'
  have hroot : startsSlash cs = false := by
    cases cs with
    | nil => rfl
    | cons d t =>
      have hd : d ≠ '/' := fun hh => h2' (hh ▸ List.mem_cons_self d t)
      simp [startsSlash, hd]
  by_cases hdot : cs = ['.']
  · subst hdot
    decide
  · by_cases hdd : cs = ['.', '.']
    · subst hdd
      decide
    · simp [fpClean, h1, hsplit, hroot, cleanCore, hcs, hdot, hdd, intercalateChar]

theorem fpBase_no_slash {s : String} (h1 : s ≠ "") (h2 : '/' ∉ s.toList) :
    fpBase s = s := by
  obtain ⟨cs⟩ := s
  have h2' : '/' ∉ cs := h2
  have hcs : cs ≠ [] := by
    intro h
    exact h1 (by rw [h])
  have hrevne : cs.reverse ≠ [] := by simpa using hcs
  have hrev : cs.reverse.dropWhile (fun c => c == '/') = cs.reverse := by
    cases hc : cs.reverse with
    | nil => rfl
    | cons r rt =>
      have hr : r ∈ cs := by
        have : r ∈ cs.reverse := by rw [hc]; exact List.mem_cons_self r rt
        simpa using this
      have hrslash : (r == '/') = false := by
        have : r ≠ '/' := fun hh => h2' (hh ▸ hr)
        simp [this]
      rw [List.dropWhile_cons, hrslash]
      simp
  have htake : cs.reverse.takeWhile (fun c => !(c == '/')) = cs.reverse := by
    apply takeWhile_eq_self_of_all
    intro x hx
    have hxm : x ∈ cs := by simpa using hx
    have : x ≠ '/' := fun hh => h2' (hh ▸ hxm)
    simp [this]
  simp [fpBase, h1, hrev, hrevne, htake]

/-- C5 counterexample: for the artifact name `a/b` the cache path is not
the artifacts directory joined with `{name}/{version}.zip` — the code
uses `filepath.Base(filepath.Clean(name))`, collapsing the name to `b`. -/
theorem artifactCachePath_name_not_verbatim :
    Cache.GetArtifactCachePath "/c" "a/b" "1.0" ≠
      Cache.specArtifactCachePath "/c" "a/b" "1.0" := by decide

/-- C5 (amended): for every artifact name that is non-empty and free of
path separators the cache path is the artifacts cache subdirectory
joined with `{name}/{version}.zip`; names containing a separator are
first sanitized to `filepath.Base(filepath.Clean(name))`. -/
theorem artifactCachePath_amended (cacheDir name version : String)
    (h1 : name ≠ "") (h2 : '/' ∉ name.toList) :
    Cache.GetArtifactCachePath cacheDir name version =
      Cache.specArtifactCachePath cacheDir name version := by
  unfold Cache.GetArtifactCachePath Cache.specArtifactCachePath
  rw [fpClean_no_slash h1 h2, fpBase_no_slash h1 h2]

theorem artifactCachePath_amended_witness :
    ("skill" ≠ "" ∧ '/' ∉ "skill".toList) ∧
      Cache.GetArtifactCachePath "/c" "skill" "1.0" =
        Cache.specArtifactCachePath "/c" "skill" "1.0" :=
  ⟨⟨by decide, by decide⟩, artifactCachePath_amended "/c" "skill" "1.0" (by decide) (by decide)⟩

/-! ## Git repository cache key (claim C6) -/

theorem hexChars_length (l : List Nat) : (hexChars l).length = 2 * l.length := by
  induction l with
  | nil => rfl
  | cons b bs ih =>
    simp only [hexChars, List.length_cons, ih]
    omega

theorem hexChars_take (l : List Nat) (k : Nat) :
    (hexChars l).take (2 * k) = hexChars (l.take k) := by
  induction l generalizing k with
  | nil => simp [hexChars]
  | cons b bs ih =>
    cases k with
    | zero => simp [hexChars]
    | succ k' =>
      have h2 : 2 * (k' + 1) = 2 * k' + 1 + 1 := by ring
      simp only [hexChars, h2, List.take_succ_cons, ih]

theorem beBytes_length (k n : Nat) : (SHA2.beBytes k n).length = k := by
  induction k generalizing n with
  | zero => rfl
  | succ k' ih => simp [SHA2.beBytes, ih]

theorem sha256_digest_length (m : List Nat) :
    (SHA2.hashBytes SHA2.sha256Params m).length = 32 := by
  unfold SHA2.hashBytes SHA2.digestBytes
  simp [beBytes_length, SHA2.sha256Params]

/-- C6: the git-repository cache path is the git-repos cache directory
joined with `URLHash` of the repository URL, and that hash — a pure
function, hence the same for equal URLs on every run — is the
16-character truncation of the lowercase hex SHA-256 of the URL. -/
theorem gitRepoCachePath_stable_hash (cacheDir url : String) :
    Cache.GetGitRepoCachePath cacheDir url =
        fpJoin [Cache.GetGitReposCacheDir cacheDir, Utils.URLHash url] ∧
      (Utils.URLHash url).length = 16 ∧
      Utils.URLHash url =
        String.mk ((Utils.ComputeSHA256 (strBytes url)).toList.take 16) := by
  refine ⟨rfl, ?_, ?_⟩
  · show (hexChars ((SHA2.hashBytes SHA2.sha256Params (strBytes url)).take 8)).length = 16
    rw [hexChars_length]
    simp [List.length_take, sha256_digest_length]
  · show String.mk (hexChars ((SHA2.hashBytes SHA2.sha256Params (strBytes url)).take 8)) =
      String.mk ((hexChars (SHA2.hashBytes SHA2.sha256Params (strBytes url))).take 16)
    have h16 : (16 : Nat) = 2 * 8 := rfl
    rw [h16, hexChars_take]

/-! ## GitHub tree URLs (claim C9) -/

theorem dropPat_append (p s : Str) : dropPat p (p ++ s) = some s := by
  induction p with
  | nil => rfl
  | cons q ps ih => simp [dropPat, ih]

theorem splitOnChar_append_cons {c : Char} {a : Str} (y : Str) (h : c ∉ a) :
    splitOnChar c (a ++ c :: y) = a :: splitOnChar c y := by
  induction a with
  | nil => simp [splitOnChar]
  | cons d a2 ih =>
    have hd : ¬(d = c) := fun hh => h (hh ▸ List.mem_cons_self d a2)
    have ha2 : c ∉ a2 := fun hh => h (List.mem_cons_of_mem d hh)
    show splitOnChar c (d :: (a2 ++ c :: y)) = (d :: a2) :: splitOnChar c y
    conv_lhs => rw [splitOnChar]
    rw [if_neg hd, ih ha2]

theorem mem_splitOnChar_not_mem {c : Char} {s x : Str} (hx : x ∈ splitOnChar c s) :
    c ∉ x := by
  induction s generalizing x with
  | nil =>
    simp [splitOnChar] at hx
    subst hx
    simp
  | cons d rest ih =>
    unfold splitOnChar at hx
    by_cases hd : d = c
    · rw [if_pos hd] at hx
      rcases List.mem_cons.mp hx with h | h
      · subst h; simp
      · exact ih h
    · rw [if_neg hd] at hx
      cases hs : splitOnChar c rest with
      | nil => exact absurd hs (splitOnChar_ne_nil c rest)
      | cons hh tt =>
        rw [hs] at hx
        rcases List.mem_cons.mp hx with h | h
        · subst h
          intro hm
          rcases List.mem_cons.mp hm with h2 | h2
          · exact hd h2.symm
          · have hhm : hh ∈ splitOnChar c rest := by
              rw [hs]; exact List.mem_cons_self hh tt
            exact ih hhm h2
        · have hxm : x ∈ splitOnChar c rest := by
            rw [hs]; exact List.mem_cons_of_mem hh h
          exact ih hxm

theorem intercalate_splitOnChar (c : Char) (s : Str) :
    intercalateChar c (splitOnChar c s) = s := by
  induction s with
  | nil => rfl
  | cons d rest ih =>
    unfold splitOnChar
    by_cases hd : d = c
    · rw [if_pos hd]
      cases hs : splitOnChar c rest with
      | nil => exact absurd hs (splitOnChar_ne_nil c rest)
      | cons hh tt =>
        rw [hs] at ih
        subst hd
        show intercalateChar d ([] :: hh :: tt) = d :: rest
        unfold intercalateChar
        rw [← ih]
        rfl
    · rw [if_neg hd]
      cases hs : splitOnChar c rest with
      | nil => exact absurd hs (splitOnChar_ne_nil c rest)
      | cons hh tt =>
        rw [hs] at ih
        cases tt with
        | nil =>
          show intercalateChar c [d :: hh] = d :: rest
          have : intercalateChar c [hh] = rest := ih
          simp only [intercalateChar] at this ⊢
          rw [this]
        | cons t2 ts =>
          show intercalateChar c ((d :: hh) :: t2 :: ts) = d :: rest
          rw [← ih]
          rfl

theorem getLastQ_cons_right {c : Char} {b : Str} (hb : b ≠ []) :
    (c :: b).getLast? = b.getLast? := by
  have h := List.getLast?_append_of_ne_nil [c] hb
  simpa using h

theorem trimOneTrailingSlash_eq_self {s : Str} (h : s.getLast? ≠ some '/') :
    Github.trimOneTrailingSlash s = s := by
  unfold Github.trimOneTrailingSlash
  rw [if_neg h]

theorem parseAfterScheme_append (s : Str) :
    Github.parseAfterScheme (Github.ghChars ++ s) =
      Github.parseSegs (splitOnChar '/' s) := by
  unfold Github.parseAfterScheme
  rw [dropPat_append]

theorem parseAfterScheme_render (o r f p : Str)
    (ho1 : o ≠ []) (ho2 : '/' ∉ o) (hr1 : r ≠ []) (hr2 : '/' ∉ r)
    (hf1 : f ≠ []) (hf2 : '/' ∉ f) :
    Github.parseAfterScheme (Github.ghChars ++ (o ++ '/' :: (r ++ '/' ::
        (Github.treeChars ++ '/' :: (f ++ (if p = [] then [] else '/' :: p)))))) =
      some (Github.TreeURL.mk o r f p) := by
  have htree : '/' ∉ Github.treeChars := by decide
  rw [parseAfterScheme_append]
  by_cases hp0 : p = []
  · subst hp0
    have hfix : (f ++ (if ([] : Str) = [] then [] else '/' :: [])) = f := by simp
    rw [hfix, splitOnChar_append_cons _ ho2, splitOnChar_append_cons _ hr2,
      splitOnChar_append_cons _ htree, splitOnChar_single hf2]
    simp [Github.parseSegs, ho1, hr1, hf1, intercalateChar]
  · rw [if_neg hp0, splitOnChar_append_cons _ ho2, splitOnChar_append_cons _ hr2,
      splitOnChar_append_cons _ htree, splitOnChar_append_cons _ hf2]
    simp [Github.parseSegs, ho1, hr1, hf1, intercalate_splitOnChar]

theorem parseAfterScheme_inv {r : Str} {t : Github.TreeURL}
    (h : Github.parseAfterScheme r = some t) :
    t.owner ≠ [] ∧ '/' ∉ t.owner ∧ t.repo ≠ [] ∧ '/' ∉ t.repo ∧
      t.ref ≠ [] ∧ '/' ∉ t.ref := by
  unfold Github.parseAfterScheme at h
  rcases hg : dropPat Github.ghChars r with _ | r2
  · simp only [hg] at h
    exact Option.noConfusion h
  · simp only [hg] at h
    rcases hs : splitOnChar '/' r2 with _ | ⟨owner, rest1⟩
    · simp [hs, Github.parseSegs] at h
    rcases rest1 with _ | ⟨repo, rest2⟩
    · simp [hs, Github.parseSegs] at h
    rcases rest2 with _ | ⟨tree, rest3⟩
    · simp [hs, Github.parseSegs] at h
    rcases rest3 with _ | ⟨ref, pathSegs⟩
    · simp [hs, Github.parseSegs] at h
    simp only [hs, Github.parseSegs] at h
    split_ifs at h with hguard
    · obtain ⟨g1, g2, _, g4⟩ := hguard
      injection h with h2
      subst h2
      have howner : owner ∈ splitOnChar '/' r2 := by
        rw [hs]; exact List.mem_cons_self _ _
      have hrepo : repo ∈ splitOnChar '/' r2 := by
        rw [hs]
        exact List.mem_cons_of_mem _ (List.mem_cons_self _ _)
      have href : ref ∈ splitOnChar '/' r2 := by
        rw [hs]
        exact List.mem_cons_of_mem _ (List.mem_cons_of_mem _
          (List.mem_cons_of_mem _ (List.mem_cons_self _ _)))
      exact ⟨g1, mem_splitOnChar_not_mem howner, g2, mem_splitOnChar_not_mem hrepo,
        g4, mem_splitOnChar_not_mem href⟩

theorem parseTreeURL_render (t : Github.TreeURL)
    (ho1 : t.owner ≠ []) (ho2 : '/' ∉ t.owner)
    (hr1 : t.repo ≠ []) (hr2 : '/' ∉ t.repo)
    (hf1 : t.ref ≠ []) (hf2 : '/' ∉ t.ref)
    (hp : t.path.getLast? ≠ some '/') :
    Github.ParseTreeURL t.render = some t := by
  obtain ⟨o, r, f, p⟩ := t
  simp only at ho1 ho2 hr1 hr2 hf1 hf2 hp
  have hrender : Github.TreeURL.render (Github.TreeURL.mk o r f p) =
      Github.httpsChars ++ (Github.ghChars ++ (o ++ '/' :: (r ++ '/' ::
        (Github.treeChars ++ '/' :: (f ++ (if p = [] then [] else '/' :: p)))))) := rfl
  have hne : (f ++ (if p = [] then [] else '/' :: p)) ≠ [] := by
    by_cases hp0 : p = [] <;> simp [hp0, hf1]
  have hlastNe : (f ++ (if p = [] then [] else '/' :: p)).getLast? ≠ some '/' := by
    by_cases hp0 : p = []
    · subst hp0
      have hfix : (f ++ (if ([] : Str) = [] then [] else '/' :: [])) = f := by simp
      rw [hfix]
      intro hl
      rcases List.mem_getLast?_eq_getLast (Option.mem_def.mpr hl) with ⟨hne2, heq⟩
      exact hf2 (heq ▸ List.getLast_mem hne2)
    · rw [if_neg hp0, List.getLast?_append_of_ne_nil _ (by simp : ('/' :: p) ≠ ([] : Str)),
        getLastQ_cons_right hp0]
      exact hp
  have hlast : (Github.TreeURL.render (Github.TreeURL.mk o r f p)).getLast? ≠ some '/' := by
    rw [hrender,
      List.getLast?_append_of_ne_nil _ (by simp : (Github.ghChars ++ (o ++ '/' :: (r ++ '/' ::
        (Github.treeChars ++ '/' :: (f ++ (if p = [] then [] else '/' :: p)))))) ≠ []),
      List.getLast?_append_of_ne_nil _ (by simp : (o ++ '/' :: (r ++ '/' ::
        (Github.treeChars ++ '/' :: (f ++ (if p = [] then [] else '/' :: p))))) ≠ []),
      List.getLast?_append_cons,
      getLastQ_cons_right (by simp : (r ++ '/' ::
        (Github.treeChars ++ '/' :: (f ++ (if p = [] then [] else '/' :: p)))) ≠ []),
      List.getLast?_append_cons,
      getLastQ_cons_right (by simp : (Github.treeChars ++ '/' ::
        (f ++ (if p = [] then [] else '/' :: p))) ≠ []),
      List.getLast?_append_cons,
      getLastQ_cons_right hne]
    exact hlastNe
  unfold Github.ParseTreeURL
  rw [trimOneTrailingSlash_eq_self hlast, hrender]
  exact parseAfterScheme_render o r f p ho1 ho2 hr1 hr2 hf1 hf2

/-- C9: a `TreeURL` produced by `ParseTreeURL` whose path does not end
in a separator survives a print-then-parse round trip: parsing its
rendered URL returns the same owner, repo, ref and path. -/
theorem parseTreeURL_roundtrip {u : Str} {t : Github.TreeURL}
    (hparse : Github.ParseTreeURL u = some t)
    (hp : t.path.getLast? ≠ some '/') :
    Github.ParseTreeURL t.render = some t := by
  have hfacts : t.owner ≠ [] ∧ '/' ∉ t.owner ∧ t.repo ≠ [] ∧ '/' ∉ t.repo ∧
      t.ref ≠ [] ∧ '/' ∉ t.ref := by
    simp only [Github.ParseTreeURL] at hparse
    rcases h1 : dropPat Github.httpsChars (Github.trimOneTrailingSlash u) with _ | r
    · rw [h1] at hparse
      rcases h2 : dropPat Github.httpChars (Github.trimOneTrailingSlash u) with _ | r
      · rw [h2] at hparse; exact Option.noConfusion hparse
      · rw [h2] at hparse; exact parseAfterScheme_inv hparse
    · rw [h1] at hparse; exact parseAfterScheme_inv hparse
  obtain ⟨ho1, ho2, hr1, hr2, hf1, hf2⟩ := hfacts
  exact parseTreeURL_render t ho1 ho2 hr1 hr2 hf1 hf2 hp

theorem parseTreeURL_roundtrip_witness :
    (Github.ParseTreeURL "https://github.com/o/r/tree/m/a/b".toList =
        some (Github.TreeURL.mk "o".toList "r".toList "m".toList "a/b".toList)) ∧
      Github.ParseTreeURL
          (Github.TreeURL.render
            (Github.TreeURL.mk "o".toList "r".toList "m".toList "a/b".toList)) =
        some (Github.TreeURL.mk "o".toList "r".toList "m".toList "a/b".toList) :=
  ⟨by decide,
    @parseTreeURL_roundtrip "https://github.com/o/r/tree/m/a/b".toList
      (Github.TreeURL.mk "o".toList "r".toList "m".toList "a/b".toList)
      (by decide) (by decide)⟩

/-! ## Session cache (claim C10) -/

theorem splitOnChar_append (c : Char) (x y : Str) :
    splitOnChar c (x ++ c :: y) = splitOnChar c x ++ splitOnChar c y := by
  induction x with
  | nil =>
    show splitOnChar c (c :: y) = splitOnChar c [] ++ splitOnChar c y
    conv_lhs => rw [splitOnChar]
    rw [if_pos rfl]
    rfl
  | cons d x2 ih =>
    show splitOnChar c (d :: (x2 ++ c :: y)) = splitOnChar c (d :: x2) ++ splitOnChar c y
    by_cases hd : d = c
    · conv_lhs => rw [splitOnChar]
      conv_rhs => rw [splitOnChar]
      rw [if_pos hd, if_pos hd, ih]
      rfl
    · conv_lhs => rw [splitOnChar]
      conv_rhs => rw [splitOnChar]
      rw [if_neg hd, if_neg hd, ih]
      cases hs : splitOnChar c x2 with
      | nil => exact absurd hs (splitOnChar_ne_nil c x2)
      | cons hh tt => rfl

theorem lookupFile_updateFile_self (fs : Sessions.FileFS) (p : String) (v : Str) :
    Sessions.lookupFile (Sessions.updateFile fs p v) p = some v := by
  induction fs with
  | nil => simp [Sessions.updateFile, Sessions.lookupFile]
  | cons e rest ih =>
    obtain ⟨q, cont⟩ := e
    unfold Sessions.updateFile
    by_cases hq : q = p
    · rw [if_pos hq]
      simp [Sessions.lookupFile]
    · rw [if_neg hq]
      simpa [Sessions.lookupFile, hq] using ih

theorem firstTok_append_space {a : Str} (b : Str) (h : ' ' ∉ a) :
    Sessions.firstTok (a ++ ' ' :: b) = a := by
  induction a with
  | nil => rfl
  | cons d a2 ih =>
    have hd : (d == ' ') = false := by
      have : d ≠ ' ' := fun hh => h (hh ▸ List.mem_cons_self d a2)
      simp [this]
    have ha2 : ' ' ∉ a2 := fun hh => h (List.mem_cons_of_mem d hh)
    show Sessions.firstTok (d :: (a2 ++ ' ' :: b)) = d :: a2
    unfold Sessions.firstTok at ih ⊢
    rw [List.takeWhile_cons, hd]
    simp [ih ha2]

theorem scanLines_newline_terminated (x : Str) :
    Sessions.scanLines (x ++ ['\n']) = splitOnChar '\n' x := by
  unfold Sessions.scanLines
  have h : splitOnChar '\n' (x ++ '\n' :: []) = splitOnChar '\n' x ++ [[]] :=
    splitOnChar_append '\n' x []
  rw [show x ++ ['\n'] = x ++ '\n' :: [] from rfl, h]
  simp [List.getLast?_concat, List.dropLast_concat]

/-- C10 (amended): recording a non-empty session id that contains no
space and no newline makes a subsequent `HasSession` of that id return
true (over any state whose session file, when present, is empty or
newline-terminated, as every file `RecordSession` writes is); recording
the empty id writes nothing and creates no file; `HasSession` of the
empty id is always false. -/
theorem sessionCache_spec (c : Sessions.SessionCache) (id ts : String)
    (fs : Sessions.FileFS) :
    ((id ≠ "" ∧ ' ' ∉ id.toList ∧ '\n' ∉ id.toList ∧ '\n' ∉ ts.toList ∧
        (∀ content, Sessions.lookupFile fs c.filePath = some content →
          content = [] ∨ content.getLast? = some '\n')) →
      Sessions.HasSession c id (Sessions.RecordSession c id ts fs) = true) ∧
    Sessions.RecordSession c "" ts fs = fs ∧
    Sessions.HasSession c "" fs = false := by
  refine ⟨?_, rfl, rfl⟩
  rintro ⟨hid, hsp, hnl, hts, hold⟩
  have hL : '\n' ∉ id.toList ++ ' ' :: ts.toList := by
    intro hm
    rcases List.mem_append.mp hm with hm | hm
    · exact hnl hm
    · rcases List.mem_cons.mp hm with hm | hm
      · exact absurd hm.symm (by decide)
      · exact hts hm
  have hpred : Sessions.firstTok (id.toList ++ ' ' :: ts.toList) = id.toList :=
    firstTok_append_space _ hsp
  have hentry : id.toList ++ ' ' :: ts.toList ++ ['\n'] =
      (id.toList ++ ' ' :: ts.toList) ++ ['\n'] := by simp
  unfold Sessions.RecordSession Sessions.HasSession
  rw [if_neg hid, if_neg hid, lookupFile_updateFile_self]
  cases hlook : Sessions.lookupFile fs c.filePath with
  | none =>
    simp only [hlook, Option.getD_none, List.nil_append, hentry]
    rw [scanLines_newline_terminated, splitOnChar_single hL]
    simp [Sessions.firstTok] at hpred ⊢
    simp [hpred]
  | some content =>
    rcases hold content hlook with hc | hc
    · subst hc
      simp only [hlook, Option.getD_some, List.nil_append, hentry]
      rw [scanLines_newline_terminated, splitOnChar_single hL]
      simp [Sessions.firstTok] at hpred ⊢
      simp [hpred]
    · have hdec : content.dropLast ++ ['\n'] = content :=
        List.dropLast_append_getLast? '\n' (Option.mem_def.mpr hc)
      simp only [hlook, Option.getD_some, hentry]
      have hassoc : content ++ ((id.toList ++ ' ' :: ts.toList) ++ ['\n']) =
          (content.dropLast ++ '\n' :: (id.toList ++ ' ' :: ts.toList)) ++ ['\n'] := by
        rw [← hdec]
        simp
      rw [hassoc, scanLines_newline_terminated, splitOnChar_append,
        splitOnChar_single hL]
      simp [Sessions.firstTok] at hpred ⊢
      simp [hpred]

theorem sessionCache_spec_witness :
    Sessions.HasSession (Sessions.SessionCache.mk "/c/x-sessions") "sid"
        (Sessions.RecordSession (Sessions.SessionCache.mk "/c/x-sessions") "sid"
          "2025-01-01T00:00:00Z" []) = true :=
  (sessionCache_spec (Sessions.SessionCache.mk "/c/x-sessions") "sid"
      "2025-01-01T00:00:00Z" []).1
    ⟨by decide, by decide, by decide, by decide, fun content h => Option.noConfusion h⟩

/-- C10 counterexample: the session id `a b` is non-empty and its
recording succeeds, yet `HasSession` does not find it afterwards — the
lookup compares only the text before the first space of each line. -/
theorem sessionCache_space_id_not_found :
    Sessions.HasSession (Sessions.SessionCache.mk "/c/x-sessions") "a b"
        (Sessions.RecordSession (Sessions.SessionCache.mk "/c/x-sessions") "a b"
          "2025-01-01T00:00:00Z" []) = false := by decide

/-! ## Lock-file round trip (claim C2) -/

theorem tlookup_append (k : String) (l1 l2 : List (String × Lock.Toml)) :
    Lock.tlookup k (l1 ++ l2) =
      match Lock.tlookup k l1 with
      | some v => some v
      | none => Lock.tlookup k l2 := by
  induction l1 with
  | nil => rfl
  | cons e rest ih =>
    obtain ⟨k2, v⟩ := e
    by_cases hk : k2 = k
    · simp [Lock.tlookup, hk]
    · simp [Lock.tlookup, hk, ih]

theorem parseStrPairs_map (l : List (String × String)) :
    Lock.parseStrPairs (l.map (fun h => (h.1, Lock.Toml.str h.2))) = .ok l := by
  induction l with
  | nil => rfl
  | cons e rest ih =>
    obtain ⟨k, v⟩ := e
    simp [Lock.parseStrPairs, ih, Except.map]

theorem parseStrList_map (l : List String) :
    Lock.parseStrList (l.map Lock.Toml.str) = .ok l := by
  induction l with
  | nil => rfl
  | cons s rest ih => simp [Lock.parseStrList, ih, Except.map]

theorem parseDep_serializeDep (d : Lock.DependencyRef) :
    Lock.parseDep (Lock.serializeDep d) = .ok d := by
  obtain ⟨n, v⟩ := d
  cases v <;>
    simp [Lock.serializeDep, Lock.parseDep, Lock.getStr, Lock.getOptStr, Lock.tlookup]

theorem parseDepList_map (l : List Lock.DependencyRef) :
    Lock.parseDepList (l.map Lock.serializeDep) = .ok l := by
  induction l with
  | nil => rfl
  | cons d rest ih =>
    simp [Lock.parseDepList, parseDep_serializeDep, ih, Except.map]

theorem parseDepList_cons_map (d : Lock.DependencyRef) (l : List Lock.DependencyRef) :
    Lock.parseDepList (Lock.serializeDep d :: l.map Lock.serializeDep) = .ok (d :: l) := by
  simp [Lock.parseDepList, parseDep_serializeDep, parseDepList_map, Except.map]

theorem parseArtifact_serializeArtifact (a : Lock.Artifact)
    (hv : Lock.ValidSource a.source = true) :
    Lock.parseArtifact (Lock.serializeArtifact a) = .ok a := by
  obtain ⟨nm, ver, ty, cl, src, scp, deps⟩ := a
  cases src with
  | http hs =>
    obtain ⟨u, hshs, sz, up⟩ := hs
    have hne : hshs ≠ [] := by
      simpa [Lock.ValidSource] using hv
    cases cl <;> cases scp <;> cases deps <;> cases sz <;> cases up <;>
      simp [Lock.serializeArtifact, Lock.artifactKvs, Lock.clientsPart, Lock.sourcePart,
        Lock.scopePart, Lock.depsPart, Lock.serializeHttp, Lock.parseArtifact,
        Lock.getStr, Lock.getOptStr, Lock.getOptNat, Lock.tlookup, tlookup_append,
        Lock.parseClients, Lock.parseSource, Lock.parseScope, Lock.parseDeps,
        Lock.parseHttp, parseStrPairs_map, parseStrList_map, parseDepList_map, parseDepList_cons_map,
        hne, Except.map]
  | git gs =>
    obtain ⟨u, rf, sub⟩ := gs
    have hsha : Lock.isFullSha rf = true := by
      simpa [Lock.ValidSource] using hv
    cases cl <;> cases scp <;> cases deps <;> cases sub <;>
      simp [Lock.serializeArtifact, Lock.artifactKvs, Lock.clientsPart, Lock.sourcePart,
        Lock.scopePart, Lock.depsPart, Lock.serializeGit, Lock.parseArtifact,
        Lock.getStr, Lock.getOptStr, Lock.getOptNat, Lock.tlookup, tlookup_append,
        Lock.parseClients, Lock.parseSource, Lock.parseScope, Lock.parseDeps,
        Lock.parseGit, parseStrList_map, parseDepList_map, parseDepList_cons_map,
        hsha, Except.map]
  | path ps =>
    obtain ⟨pth⟩ := ps
    cases cl <;> cases scp <;> cases deps <;>
      simp [Lock.serializeArtifact, Lock.artifactKvs, Lock.clientsPart, Lock.sourcePart,
        Lock.scopePart, Lock.depsPart, Lock.parseArtifact,
        Lock.getStr, Lock.getOptStr, Lock.getOptNat, Lock.tlookup, tlookup_append,
        Lock.parseClients, Lock.parseSource, Lock.parseScope, Lock.parseDeps,
        Lock.parsePath, parseStrList_map, parseDepList_map, parseDepList_cons_map, Except.map]

theorem parseArtifactList_map (l : List Lock.Artifact)
    (h : ∀ a ∈ l, Lock.ValidSource a.source = true) :
    Lock.parseArtifactList (l.map Lock.serializeArtifact) = .ok l := by
  induction l with
  | nil => rfl
  | cons a rest ih =>
    rw [List.map_cons]
    unfold Lock.parseArtifactList
    rw [parseArtifact_serializeArtifact a (h a (List.mem_cons_self a rest)),
      ih (fun b hb => h b (List.mem_cons_of_mem a hb))]
    rfl

/-- C2: for every valid lock file value — known major format version
and every artifact source carrying the integrity data its kind requires
— parsing the serialization yields a structurally equal value. -/
theorem lockFile_roundtrip (lf : Lock.LockFile) (hv : Lock.ValidLockFile lf = true) :
    Lock.parse (Lock.serialize lf) = .ok lf := by
  obtain ⟨lv, ver, cb, arts⟩ := lf
  have hv2 : Lock.majorOf lv = "1" ∧ ∀ a ∈ arts, Lock.ValidSource a.source = true := by
    simpa [Lock.ValidLockFile, List.all_eq_true] using hv
  obtain ⟨hmaj, hall⟩ := hv2
  unfold Lock.serialize Lock.parse
  simp [Lock.getStr, Lock.tlookup, hmaj, parseArtifactList_map arts hall, Except.map]

theorem lockFile_roundtrip_witness :
    (Lock.ValidLockFile (Lock.LockFile.mk "1.0" "abc123" "sleuth-cli/0.1.0"
        [Lock.Artifact.mk "github-mcp" "1.2.3" "mcp" none
          (Lock.Source.http (Lock.HttpSource.mk
            "https://app.sleuth.io/github-mcp-1.2.3.zip"
            [("sha256", "e3b0c44298fc1c149afbf4c8996fb92427ae41e4649b934ca495991b7852b855")]
            (some 145678) none))
          Lock.Scope.global [Lock.DependencyRef.mk "helper" none],
         Lock.Artifact.mk "custom-agent" "0.5.0" "agent" (some ["claude-code"])
          (Lock.Source.git (Lock.GitSource.mk "https://github.com/c/agents.git"
            "a1b2c3d4e5f6789012345678901234567890abcd" (some "dist")))
          (Lock.Scope.path "https://github.com/c/backend" "services/api") [],
         Lock.Artifact.mk "helper" "0.1.0" "skill" none
          (Lock.Source.path (Lock.PathSource.mk "~/dev/helper.zip"))
          (Lock.Scope.repo "https://github.com/c/backend") []]) = true) ∧
      Lock.parse (Lock.serialize (Lock.LockFile.mk "1.0" "abc123" "sleuth-cli/0.1.0"
        [Lock.Artifact.mk "github-mcp" "1.2.3" "mcp" none
          (Lock.Source.http (Lock.HttpSource.mk
            "https://app.sleuth.io/github-mcp-1.2.3.zip"
            [("sha256", "e3b0c44298fc1c149afbf4c8996fb92427ae41e4649b934ca495991b7852b855")]
            (some 145678) none))
          Lock.Scope.global [Lock.DependencyRef.mk "helper" none],
         Lock.Artifact.mk "custom-agent" "0.5.0" "agent" (some ["claude-code"])
          (Lock.Source.git (Lock.GitSource.mk "https://github.com/c/agents.git"
            "a1b2c3d4e5f6789012345678901234567890abcd" (some "dist")))
          (Lock.Scope.path "https://github.com/c/backend" "services/api") [],
         Lock.Artifact.mk "helper" "0.1.0" "skill" none
          (Lock.Source.path (Lock.PathSource.mk "~/dev/helper.zip"))
          (Lock.Scope.repo "https://github.com/c/backend") []])) =
        .ok (Lock.LockFile.mk "1.0" "abc123" "sleuth-cli/0.1.0"
        [Lock.Artifact.mk "github-mcp" "1.2.3" "mcp" none
          (Lock.Source.http (Lock.HttpSource.mk
            "https://app.sleuth.io/github-mcp-1.2.3.zip"
            [("sha256", "e3b0c44298fc1c149afbf4c8996fb92427ae41e4649b934ca495991b7852b855")]
            (some 145678) none))
          Lock.Scope.global [Lock.DependencyRef.mk "helper" none],
         Lock.Artifact.mk "custom-agent" "0.5.0" "agent" (some ["claude-code"])
          (Lock.Source.git (Lock.GitSource.mk "https://github.com/c/agents.git"
            "a1b2c3d4e5f6789012345678901234567890abcd" (some "dist")))
          (Lock.Scope.path "https://github.com/c/backend" "services/api") [],
         Lock.Artifact.mk "helper" "0.1.0" "skill" none
          (Lock.Source.path (Lock.PathSource.mk "~/dev/helper.zip"))
          (Lock.Scope.repo "https://github.com/c/backend") []]) :=
  ⟨by decide, lockFile_roundtrip _ (by decide)⟩

end Sx
